import Mathlib

/-
Verification of the spherical projection / rasterization core of
cloud_proc (include/cloud_proc/projection.h) against its natural
language specification.

The scalar type T of the source is IEEE floating point.  It is modelled
by the type F below: NaN, the two infinities, or a finite value carried
as a real number.  Rounding is abstracted away; every claim under study
depends only on finiteness, the NaN disjuncts of guards, orderings of
values and the piecewise shape of atan2, none of which involve rounding.
Because real comparisons are classically decidable only, the definitions
that branch on them are noncomputable; witnesses evaluate them by simp
and norm_num instead of kernel reduction.

A PointCloud2 point record is modelled as its three coordinate fields
plus the remaining bytes of the record carried opaquely; the byte wise
record copy of the source is the copy of that whole structure.  The
message dimension fields are uint32 and the configured dimensions are C
ints, so assigning a configured dimension converts it modulo 2^32 and
the uint32 products of the row_step computations wrap modulo 2^32.  The
asserts of Projection::process are modelled with debug semantics: the
call returns Except.error carrying the output message state at the
moment the failing assert runs.
-/

set_option linter.unusedVariables false

open scoped Classical

namespace cloud_proc

/-- Model of one IEEE floating point scalar: NaN, an infinity, or a
finite value represented by a real number. -/
inductive F where
  | nan : F
  | pinf : F
  | ninf : F
  | fin : ℝ → F

/-- The std::isfinite test on a scalar. -/
def F.IsFinite : F → Prop
  | F.fin _ => True
  | _ => False

/-- The C comparison x != 0 on a scalar: NaN and the infinities compare
unequal to zero, a finite value is unequal to zero iff its value is. -/
def F.Nonzero : F → Prop
  | F.fin a => a ≠ 0
  | _ => True

/-- Numeric value of a finite scalar, with junk value 0 on non finite
scalars; the source only reads coordinate values under isfinite guards. -/
def F.toReal : F → ℝ
  | F.fin a => a
  | _ => 0

/-- Source function is_point_valid (projection.h lines 10-15): all three
coordinates finite and the C test (x != 0 || y != 0 || z != 0). -/
def is_point_valid (x y z : F) : Prop :=
  x.IsFinite ∧ y.IsFinite ∧ z.IsFinite ∧ (x.Nonzero ∨ y.Nonzero ∨ z.Nonzero)

/-- The C library atan2 on the real model, by the usual piecewise
definition; signed zeros are not representable in the real model. -/
noncomputable def atan2 (y x : ℝ) : ℝ :=
  if 0 < x then Real.arctan (y / x)
  else if x < 0 then
    (if 0 ≤ y then Real.arctan (y / x) + Real.pi else Real.arctan (y / x) - Real.pi)
  else
    (if 0 < y then Real.pi / 2 else if y < 0 then -(Real.pi / 2) else 0)

/-- The C library hypot on the real model. -/
noncomputable def hypot (x y : ℝ) : ℝ := Real.sqrt (x ^ 2 + y ^ 2)

/-- Source function azimuth (projection.h lines 17-21). -/
noncomputable def azimuth (x y z : ℝ) : ℝ := atan2 y x

/-- Source function elevation (projection.h lines 23-27). -/
noncomputable def elevation (x y z : ℝ) : ℝ := atan2 z (hypot x y)

/-- Enumerator Projection::Keep, value KEEP_FIRST = 0.  The member keep_
of the source is a plain int, so the policy is modelled as an integer. -/
def KEEP_FIRST : ℤ := 0

/-- Enumerator value KEEP_LAST = 1, the default policy. -/
def KEEP_LAST : ℤ := 1

/-- Enumerator value KEEP_CLOSEST = 2. -/
def KEEP_CLOSEST : ℤ := 2

/-- Enumerator value KEEP_FARTHEST = 3. -/
def KEEP_FARTHEST : ℤ := 3

/-- One fixed size point record of a PointCloud2 message: the three
float coordinate fields plus the remaining bytes of the record carried
opaquely.  The byte for byte record copy of the source (projection.h
lines 128-131) is modelled as copying this whole structure. -/
structure Rec where
  x : F
  y : F
  z : F
  rest : List ℕ

/-- The all zero record with an opaque payload of n zero bytes: zero
bytes decode to coordinates 0.0, which the validity test rejects. -/
def Rec.zero (n : ℕ) : Rec :=
  { x := F.fin 0, y := F.fin 0, z := F.fin 0, rest := List.replicate n 0 }

/-- Shorthand: the validity classifier applied to the coordinate fields
of a record. -/
def Rec.Valid (r : Rec) : Prop := is_point_valid r.x r.y r.z

/-- The nested std::hypot range expression used by the KEEP_CLOSEST and
KEEP_FARTHEST policies (projection.h lines 116 and 124). -/
noncomputable def Rec.range (r : Rec) : ℝ :=
  hypot (hypot r.x.toReal r.y.toReal) r.z.toReal

/-- A sensor_msgs::PointCloud2 message as the core uses it: dimensions
and layout scalars, the header and field descriptors carried opaquely,
and the point data as a row major list of records. -/
structure Cloud where
  header : ℕ
  height : ℕ
  width : ℕ
  fields : ℕ
  is_bigendian : Bool
  point_step : ℕ
  row_step : ℕ
  data : List Rec
  is_dense : Bool

/-- Configuration members of the Projection class (projection.h lines
41-48), with the default member values of the source. -/
structure Projection where
  height : ℤ := 0
  width : ℤ := 0
  f_azimuth : F := F.nan
  f_elevation : F := F.nan
  c_azimuth : F := F.nan
  c_elevation : F := F.nan
  keep : ℤ := KEEP_LAST
  azimuth_only : Bool := false

/-- A Projection object with every member left at its declared default. -/
def Projection.init : Projection := {}

/-- Conversion of a C++ signed integer value to uint32: reduction modulo
2^32.  This is the conversion the source performs when the int members
height_ and width_ are assigned to the uint32 fields of the message. -/
def toU32 (n : ℤ) : ℕ := (n % 2 ^ 32).toNat

/-- Resolved output height (projection.h line 56): output.height is
uint32, so assigning the configured int height converts it modulo 2^32;
the branch taken from input.height copies a uint32 value unchanged. -/
def resolvedHeight (p : Projection) (inHeight : ℕ) : ℕ :=
  if p.azimuth_only = true ∨ p.height = 0 then inHeight else toU32 p.height

/-- Resolved output width (projection.h line 58), with the same int to
uint32 conversion of the configured width. -/
def resolvedWidth (p : Projection) (inWidth : ℕ) : ℕ :=
  if p.width = 0 then inWidth else toU32 p.width

/-- Scale resolution (projection.h lines 69-70): the configured value
when it is finite and non zero, the supplied default otherwise. -/
noncomputable def resolveScale (cfg : F) (dflt : ℝ) : ℝ :=
  if cfg.IsFinite ∧ cfg.Nonzero then cfg.toReal else dflt

/-- Offset resolution (projection.h lines 71-72): the configured value
when it is finite, the supplied default otherwise. -/
noncomputable def resolveOffset (cfg : F) (dflt : ℝ) : ℝ :=
  if cfg.IsFinite then cfg.toReal else dflt

/-- The resolved azimuth scale f_azimuth of a call, with its geometry
derived default -output.width / (2 pi). -/
noncomputable def fAzOf (p : Projection) (wOut : ℕ) : ℝ :=
  resolveScale p.f_azimuth (-(wOut : ℝ) / (2 * Real.pi))

/-- The resolved elevation scale f_elevation, default
-output.height / (pi / 2). -/
noncomputable def fElOf (p : Projection) (hOut : ℕ) : ℝ :=
  resolveScale p.f_elevation (-(hOut : ℝ) / (Real.pi / 2))

/-- The resolved azimuth offset c_azimuth, default output.width/2 - 0.5. -/
noncomputable def cAzOf (p : Projection) (wOut : ℕ) : ℝ :=
  resolveOffset p.c_azimuth ((wOut : ℝ) / 2 - 0.5)

/-- The resolved elevation offset c_elevation, default
output.height/2 - 0.5. -/
noncomputable def cElOf (p : Projection) (hOut : ℕ) : ℝ :=
  resolveOffset p.c_elevation ((hOut : ℝ) / 2 - 0.5)

/-- Continuous to discrete column mapping with the half open in image
test (projection.h lines 83-89): u = f_azimuth * azimuth + c_azimuth,
then u += 0.5, skip when u < 0 or u >= output.width, else truncate.  In
the real model the operands reaching this point are finite, so the
std::isnan(u) disjunct of the source guard cannot fire, and the float to
size_t conversion of the guarded non negative u is the floor. -/
noncomputable def colOf (wOut : ℕ) (fAz cAz az : ℝ) : Option ℕ :=
  if fAz * az + cAz + 0.5 < 0 ∨ (wOut : ℝ) ≤ fAz * az + cAz + 0.5 then none
  else some (⌊fAz * az + cAz + 0.5⌋.toNat)

/-- Continuous to discrete row mapping (projection.h lines 97-101),
analogous to the column mapping. -/
noncomputable def rowOf (hOut : ℕ) (fEl cEl el : ℝ) : Option ℕ :=
  if fEl * el + cEl + 0.5 < 0 ∨ (hOut : ℝ) ≤ fEl * el + cEl + 0.5 then none
  else some (⌊fEl * el + cEl + 0.5⌋.toNat)

/-- Target pixel of one input point (projection.h lines 82-102): column
from the azimuth, then either the input row (azimuth only mode) or the
row from the elevation. -/
noncomputable def targetCell (azOnly : Bool) (fAz fEl cAz cEl : ℝ)
    (hOut wOut : ℕ) (iIn : ℕ) (x y z : ℝ) : Option (ℕ × ℕ) :=
  match colOf wOut fAz cAz (azimuth x y z) with
  | none => none
  | some j =>
      if azOnly then some (iIn, j)
      else
        match rowOf hOut fEl cEl (elevation x y z) with
        | none => none
        | some i => some (i, j)

/-- The skip decision of the collision policy block (projection.h lines
103-126) as a predicate on the current cell content and the candidate
record.  The source tests KEEP_FIRST, else KEEP_CLOSEST, then FARTHEST
in a separate if; the integer policy value makes those exclusive, so the
chain below is the same decision. -/
def keepSkip (keep : ℤ) (cur cand : Rec) : Prop :=
  if keep = KEEP_FIRST then cur.Valid
  else if keep = KEEP_CLOSEST then cur.Valid ∧ cur.range ≤ cand.range
  else if keep = KEEP_FARTHEST then cur.Valid ∧ cand.range ≤ cur.range
  else False

/-- Processing of one input point at input row iIn (the body of the
inner loop, projection.h lines 80-131): validity test, target pixel,
collision policy, and the record copy modelled as List.set.  The getD
junk default is never read in bounds. -/
noncomputable def processPoint (azOnly : Bool) (keep : ℤ) (fAz fEl cAz cEl : ℝ)
    (hOut wOut : ℕ) (iIn : ℕ) (r : Rec) (data : List Rec) : List Rec :=
  if is_point_valid r.x r.y r.z then
    match targetCell azOnly fAz fEl cAz cEl hOut wOut iIn r.x.toReal r.y.toReal r.z.toReal with
    | none => data
    | some ij =>
        if keepSkip keep (data.getD (ij.1 * wOut + ij.2) (Rec.zero 0)) r then data
        else data.set (ij.1 * wOut + ij.2) r
  else data

/-- The double per point loop (projection.h lines 76-133), rewritten as
one pass over the flat record list with running point index k; the
source row index is i_in = k / input.width. -/
noncomputable def processFrom (azOnly : Bool) (keep : ℤ) (fAz fEl cAz cEl : ℝ)
    (hOut wOut wIn : ℕ) : ℕ → List Rec → List Rec → List Rec
  | _, [], acc => acc
  | k, r :: rs, acc =>
      processFrom azOnly keep fAz fEl cAz cEl hOut wOut wIn (k + 1) rs
        (processPoint azOnly keep fAz fEl cAz cEl hOut wOut (k / wIn) r acc)

/-- All valid records, in scan order starting at point index k, whose
target pixel has flat index c.  This is the per cell candidate stream
that the collision policy arbitrates. -/
noncomputable def hitsFrom (azOnly : Bool) (fAz fEl cAz cEl : ℝ)
    (hOut wOut wIn c : ℕ) : ℕ → List Rec → List Rec
  | _, [] => []
  | k, r :: rs =>
      (if is_point_valid r.x r.y r.z then
        (match targetCell azOnly fAz fEl cAz cEl hOut wOut (k / wIn) r.x.toReal r.y.toReal r.z.toReal with
         | none => []
         | some ij => if ij.1 * wOut + ij.2 = c then [r] else [])
       else []) ++ hitsFrom azOnly fAz fEl cAz cEl hOut wOut wIn c (k + 1) rs

/-- Sequential arbitration of a candidate stream for one cell: each
candidate either loses (the skip predicate holds) or replaces the cell
content. -/
noncomputable def policyFold (keep : ℤ) : Rec → List Rec → Rec
  | a, [] => a
  | a, r :: rs => policyFold keep (if keepSkip keep a r then a else r) rs

/-- Lines 60-133 of the source: layout field copies, zero initialization
of the output data buffer, constant resolution and the rasterization
loop, applied to the output message after its dimensions were assigned.
The row_step assignment of line 63 multiplies two uint32 values, so the
product wraps modulo 2^32. -/
noncomputable def finishProcess (p : Projection) (input : Cloud) (o : Cloud) : Cloud :=
  { o with fields := input.fields,
           is_bigendian := input.is_bigendian,
           point_step := input.point_step,
           row_step := o.width * input.point_step % 2 ^ 32,
           is_dense := input.is_dense,
           data := processFrom p.azimuth_only p.keep
                     (fAzOf p o.width) (fElOf p o.height) (cAzOf p o.width) (cElOf p o.height)
                     o.height o.width input.width 0
                     (input.data.take (input.height * input.width))
                     (List.replicate (o.height * o.width) (Rec.zero input.point_step)) }

/-- Projection::process (projection.h lines 50-135) with debug assert
semantics: a failing assert yields Except.error carrying the output
message state at that moment.  All message fields compared here are
uint32, so the row_step comparison of line 54 compares against the
wrapped uint32 product, and the dimension asserts of lines 57 and 59
test the wrapped resolved values (they are proved unreachable for int
representable configurations once the input asserts pass).  The source
assigns output.header and the resolved dimensions before asserting on
them, which the intermediate record updates below reproduce. -/
noncomputable def process (p : Projection) (input : Cloud) (out0 : Cloud) : Except Cloud Cloud :=
  if 1 ≤ input.height then
    if 1 ≤ input.width then
      if input.row_step = input.width * input.point_step % 2 ^ 32 then
        if 1 ≤ resolvedHeight p input.height then
          if 1 ≤ resolvedWidth p input.width then
            Except.ok (finishProcess p input
              { out0 with header := input.header,
                          height := resolvedHeight p input.height,
                          width := resolvedWidth p input.width })
          else
            Except.error { out0 with header := input.header,
                                     height := resolvedHeight p input.height,
                                     width := resolvedWidth p input.width }
        else
          Except.error { out0 with header := input.header,
                                   height := resolvedHeight p input.height }
      else Except.error out0
    else Except.error out0
  else Except.error out0

/-- The per cell candidate stream of a call, phrased over the resolved
geometry and constants of process. -/
noncomputable def hitsOf (p : Projection) (input : Cloud) (c : ℕ) : List Rec :=
  hitsFrom p.azimuth_only
    (fAzOf p (resolvedWidth p input.width))
    (fElOf p (resolvedHeight p input.height))
    (cAzOf p (resolvedWidth p input.width))
    (cElOf p (resolvedHeight p input.height))
    (resolvedHeight p input.height)
    (resolvedWidth p input.width)
    input.width c 0
    (input.data.take (input.height * input.width))

/-- Empty output message seed used by the concrete instances below. -/
def cloud0 : Cloud :=
  { header := 0, height := 0, width := 0, fields := 0, is_bigendian := false,
    point_step := 0, row_step := 0, data := [], is_dense := false }

/-- A single all zero (invalid) record with a one byte payload. -/
def recZ : Rec := Rec.zero 1

/-- A well formed 1 by 1 input cloud holding one invalid point. -/
def inTriv : Cloud :=
  { header := 0, height := 1, width := 1, fields := 0, is_bigendian := false,
    point_step := 1, row_step := 1, data := [recZ], is_dense := true }

/-- The output that process produces from inTriv under the default
configuration: resolved 1 by 1 geometry, data still all zero. -/
def outTriv : Cloud :=
  { header := 0, height := 1, width := 1, fields := 0, is_bigendian := false,
    point_step := 1, row_step := 1, data := [recZ], is_dense := true }

/-- A configuration whose explicit output height is the int value -1,
which the uint32 assignment of line 56 wraps to 4294967295. -/
def pNeg : Projection := { height := -1 }

/-- A well formed 1 by 1 input cloud used by the wrap scenario. -/
def inHdr : Cloud :=
  { header := 5, height := 1, width := 1, fields := 0, is_bigendian := false,
    point_step := 1, row_step := 1, data := [recZ], is_dense := true }

/-- Output of the wrap scenario: the configured height -1 wraps to
4294967295, both dimension asserts pass, and the call succeeds with a
zero initialized buffer of 4294967295 rows that the single invalid
input point leaves untouched. -/
def outNeg : Cloud :=
  { header := 5, height := 4294967295, width := 1, fields := 0, is_bigendian := false,
    point_step := 1, row_step := 1, data := List.replicate (4294967295 * 1) (Rec.zero 1),
    is_dense := true }

/-- Valid input point on the positive x axis at range 1. -/
def recA : Rec := { x := F.fin 1, y := F.fin 0, z := F.fin 0, rest := [7] }

/-- Valid input point on the positive x axis at range 2. -/
def recB : Rec := { x := F.fin 2, y := F.fin 0, z := F.fin 0, rest := [9] }

/-- Configuration of the two point collision scenario: 1 by 1 output,
unit scales, offsets -0.5, policy KEEP_LAST. -/
def pC3 : Projection :=
  { height := 0, width := 1, f_azimuth := F.fin 1, f_elevation := F.fin 1,
    c_azimuth := F.fin (-0.5), c_elevation := F.fin (-0.5),
    keep := KEEP_LAST, azimuth_only := false }

/-- Input of the collision scenario: one scan row with the two points
recA and recB, both projecting to the single output pixel. -/
def inC3 : Cloud :=
  { header := 0, height := 1, width := 2, fields := 0, is_bigendian := false,
    point_step := 1, row_step := 2, data := [recA, recB], is_dense := true }

/-- Expected output of the collision scenario under KEEP_LAST: the later
point recB occupies the single pixel. -/
def outC3 : Cloud :=
  { header := 0, height := 1, width := 1, fields := 0, is_bigendian := false,
    point_step := 1, row_step := 1, data := [recB], is_dense := true }

/-- Configuration for the azimuth only safety instance: explicit width 1,
unit azimuth scale, azimuth offset -0.5, azimuth only mode on. -/
def p10 : Projection :=
  { width := 1, f_azimuth := F.fin 1, c_azimuth := F.fin (-0.5), azimuth_only := true }

/-- Configuration exercising all four resolution cases of the mapping
constants: finite non zero scale, NaN scale, finite zero offset,
infinite offset. -/
def p5 : Projection :=
  { f_azimuth := F.fin 2, f_elevation := F.nan, c_azimuth := F.fin 0, c_elevation := F.pinf }

/-- Configuration with an explicit (non zero) output width of 1 and all
other members at their defaults. -/
def pW1 : Projection := { width := 1 }

theorem F.nonzero_iff_ne_fin_zero (x : F) (hx : x.IsFinite) :
    x.Nonzero ↔ x ≠ F.fin 0 := by
  cases x <;> simp [F.IsFinite, F.Nonzero] at hx ⊢

theorem hypot_nonneg (x y : ℝ) : 0 ≤ hypot x y := Real.sqrt_nonneg _

theorem hypot_hypot_eq (x y z : ℝ) :
    hypot (hypot x y) z = Real.sqrt (x ^ 2 + y ^ 2 + z ^ 2) := by
  unfold hypot
  rw [Real.sq_sqrt (by positivity)]

theorem hypot_axis (a : ℝ) (h : 0 ≤ a) : hypot a 0 = a := by
  unfold hypot
  rw [show a ^ 2 + (0 : ℝ) ^ 2 = a ^ 2 by ring, Real.sqrt_sq h]

theorem atan2_bounds (z r : ℝ) (h : 0 ≤ r) :
    -(Real.pi / 2) ≤ atan2 z r ∧ atan2 z r ≤ Real.pi / 2 := by
  have hpi := Real.pi_pos
  unfold atan2
  split_ifs with h1 h2 h3 h4 h5
  · exact ⟨le_of_lt (Real.neg_pi_div_two_lt_arctan _),
      le_of_lt (Real.arctan_lt_pi_div_two _)⟩
  · linarith
  · linarith
  · constructor <;> linarith
  · constructor <;> linarith
  · constructor <;> linarith

theorem atan2_zero_pos (x : ℝ) (h : 0 < x) : atan2 0 x = 0 := by
  unfold atan2
  rw [if_pos h, zero_div, Real.arctan_zero]

theorem azimuth_axis (a : ℝ) (h : 0 < a) : azimuth a 0 0 = 0 := by
  unfold azimuth
  exact atan2_zero_pos a h

theorem elevation_axis (a : ℝ) (h : 0 < a) : elevation a 0 0 = 0 := by
  unfold elevation
  rw [hypot_axis a (le_of_lt h)]
  exact atan2_zero_pos a h

theorem keepSkip_first (cur cand : Rec) :
    keepSkip KEEP_FIRST cur cand ↔ cur.Valid := by
  unfold keepSkip
  norm_num [KEEP_FIRST]

theorem keepSkip_last (cur cand : Rec) : ¬ keepSkip KEEP_LAST cur cand := by
  unfold keepSkip
  norm_num [KEEP_FIRST, KEEP_LAST, KEEP_CLOSEST, KEEP_FARTHEST]

theorem keepSkip_closest (cur cand : Rec) :
    keepSkip KEEP_CLOSEST cur cand ↔ cur.Valid ∧ cur.range ≤ cand.range := by
  unfold keepSkip
  norm_num [KEEP_FIRST, KEEP_CLOSEST]

theorem keepSkip_farthest (cur cand : Rec) :
    keepSkip KEEP_FARTHEST cur cand ↔ cur.Valid ∧ cand.range ≤ cur.range := by
  unfold keepSkip
  norm_num [KEEP_FIRST, KEEP_CLOSEST, KEEP_FARTHEST]

theorem zero_rec_invalid (n : ℕ) : ¬ (Rec.zero n).Valid := by
  simp [Rec.zero, Rec.Valid, is_point_valid, F.Nonzero]

theorem colOf_none_iff (w : ℕ) (fa ca az : ℝ) :
    colOf w fa ca az = none ↔
      (fa * az + ca + 0.5 < 0 ∨ (w : ℝ) ≤ fa * az + ca + 0.5) := by
  unfold colOf
  split_ifs with h <;> simp [h]

theorem colOf_some (w : ℕ) (fa ca az : ℝ) (j : ℕ)
    (hj : colOf w fa ca az = some j) :
    (j : ℤ) = ⌊fa * az + ca + 0.5⌋ ∧ j < w := by
  unfold colOf at hj
  split_ifs at hj with h
  push_neg at h
  obtain ⟨h0, hw⟩ := h
  have hfl : (0 : ℤ) ≤ ⌊fa * az + ca + 0.5⌋ := Int.floor_nonneg.mpr h0
  have hje : j = ⌊fa * az + ca + 0.5⌋.toNat := (Option.some.injEq _ _).mp hj |>.symm
  subst hje
  refine ⟨Int.toNat_of_nonneg hfl, ?_⟩
  have hlt : ⌊fa * az + ca + 0.5⌋ < (w : ℤ) := by
    apply Int.floor_lt.mpr
    rwa [Int.cast_natCast]
  omega

theorem processPoint_invalid {azOnly : Bool} {keep : ℤ} {fAz fEl cAz cEl : ℝ}
    {hOut wOut iIn : ℕ} {r : Rec} {data : List Rec}
    (hv : ¬ is_point_valid r.x r.y r.z) :
    processPoint azOnly keep fAz fEl cAz cEl hOut wOut iIn r data = data := by
  unfold processPoint
  rw [if_neg hv]

theorem processPoint_miss {azOnly : Bool} {keep : ℤ} {fAz fEl cAz cEl : ℝ}
    {hOut wOut iIn : ℕ} {r : Rec} {data : List Rec}
    (hv : is_point_valid r.x r.y r.z)
    (ht : targetCell azOnly fAz fEl cAz cEl hOut wOut iIn
            r.x.toReal r.y.toReal r.z.toReal = none) :
    processPoint azOnly keep fAz fEl cAz cEl hOut wOut iIn r data = data := by
  unfold processPoint
  rw [if_pos hv, ht]

theorem processPoint_skip {azOnly : Bool} {keep : ℤ} {fAz fEl cAz cEl : ℝ}
    {hOut wOut iIn : ℕ} {r : Rec} {data : List Rec} {ij : ℕ × ℕ}
    (hv : is_point_valid r.x r.y r.z)
    (ht : targetCell azOnly fAz fEl cAz cEl hOut wOut iIn
            r.x.toReal r.y.toReal r.z.toReal = some ij)
    (hs : keepSkip keep (data.getD (ij.1 * wOut + ij.2) (Rec.zero 0)) r) :
    processPoint azOnly keep fAz fEl cAz cEl hOut wOut iIn r data = data := by
  unfold processPoint
  rw [if_pos hv, ht]
  exact if_pos hs

theorem processPoint_write {azOnly : Bool} {keep : ℤ} {fAz fEl cAz cEl : ℝ}
    {hOut wOut iIn : ℕ} {r : Rec} {data : List Rec} {ij : ℕ × ℕ}
    (hv : is_point_valid r.x r.y r.z)
    (ht : targetCell azOnly fAz fEl cAz cEl hOut wOut iIn
            r.x.toReal r.y.toReal r.z.toReal = some ij)
    (hs : ¬ keepSkip keep (data.getD (ij.1 * wOut + ij.2) (Rec.zero 0)) r) :
    processPoint azOnly keep fAz fEl cAz cEl hOut wOut iIn r data =
      data.set (ij.1 * wOut + ij.2) r := by
  unfold processPoint
  rw [if_pos hv, ht]
  exact if_neg hs

theorem hitsFrom_cons_invalid {azOnly : Bool} {fAz fEl cAz cEl : ℝ}
    {hOut wOut wIn c k : ℕ} {r : Rec} {rs : List Rec}
    (hv : ¬ is_point_valid r.x r.y r.z) :
    hitsFrom azOnly fAz fEl cAz cEl hOut wOut wIn c k (r :: rs) =
      hitsFrom azOnly fAz fEl cAz cEl hOut wOut wIn c (k + 1) rs := by
  rw [hitsFrom, if_neg hv, List.nil_append]

theorem hitsFrom_cons_miss {azOnly : Bool} {fAz fEl cAz cEl : ℝ}
    {hOut wOut wIn c k : ℕ} {r : Rec} {rs : List Rec}
    (hv : is_point_valid r.x r.y r.z)
    (ht : targetCell azOnly fAz fEl cAz cEl hOut wOut (k / wIn)
            r.x.toReal r.y.toReal r.z.toReal = none) :
    hitsFrom azOnly fAz fEl cAz cEl hOut wOut wIn c k (r :: rs) =
      hitsFrom azOnly fAz fEl cAz cEl hOut wOut wIn c (k + 1) rs := by
  rw [hitsFrom, if_pos hv, ht]
  exact List.nil_append _

theorem hitsFrom_cons_other {azOnly : Bool} {fAz fEl cAz cEl : ℝ}
    {hOut wOut wIn c k : ℕ} {r : Rec} {rs : List Rec} {ij : ℕ × ℕ}
    (hv : is_point_valid r.x r.y r.z)
    (ht : targetCell azOnly fAz fEl cAz cEl hOut wOut (k / wIn)
            r.x.toReal r.y.toReal r.z.toReal = some ij)
    (hc : ij.1 * wOut + ij.2 ≠ c) :
    hitsFrom azOnly fAz fEl cAz cEl hOut wOut wIn c k (r :: rs) =
      hitsFrom azOnly fAz fEl cAz cEl hOut wOut wIn c (k + 1) rs := by
  rw [hitsFrom, if_pos hv, ht]
  show (if ij.1 * wOut + ij.2 = c then [r] else []) ++ _ = _
  rw [if_neg hc, List.nil_append]

theorem hitsFrom_cons_hit {azOnly : Bool} {fAz fEl cAz cEl : ℝ}
    {hOut wOut wIn c k : ℕ} {r : Rec} {rs : List Rec} {ij : ℕ × ℕ}
    (hv : is_point_valid r.x r.y r.z)
    (ht : targetCell azOnly fAz fEl cAz cEl hOut wOut (k / wIn)
            r.x.toReal r.y.toReal r.z.toReal = some ij)
    (hc : ij.1 * wOut + ij.2 = c) :
    hitsFrom azOnly fAz fEl cAz cEl hOut wOut wIn c k (r :: rs) =
      r :: hitsFrom azOnly fAz fEl cAz cEl hOut wOut wIn c (k + 1) rs := by
  rw [hitsFrom, if_pos hv, ht]
  show (if ij.1 * wOut + ij.2 = c then [r] else []) ++ _ = _
  rw [if_pos hc, List.singleton_append]

theorem processPoint_length {azOnly : Bool} {keep : ℤ} {fAz fEl cAz cEl : ℝ}
    {hOut wOut iIn : ℕ} {r : Rec} {data : List Rec} :
    (processPoint azOnly keep fAz fEl cAz cEl hOut wOut iIn r data).length =
      data.length := by
  by_cases hv : is_point_valid r.x r.y r.z
  · rcases ht : targetCell azOnly fAz fEl cAz cEl hOut wOut iIn
        r.x.toReal r.y.toReal r.z.toReal with _ | ij
    · rw [processPoint_miss hv ht]
    · by_cases hs : keepSkip keep (data.getD (ij.1 * wOut + ij.2) (Rec.zero 0)) r
      · rw [processPoint_skip hv ht hs]
      · rw [processPoint_write hv ht hs, List.length_set]
  · rw [processPoint_invalid hv]

theorem processPoint_subset {azOnly : Bool} {keep : ℤ} {fAz fEl cAz cEl : ℝ}
    {hOut wOut iIn : ℕ} {r : Rec} {data : List Rec} {s : Rec}
    (hm : s ∈ processPoint azOnly keep fAz fEl cAz cEl hOut wOut iIn r data) :
    s ∈ data ∨ s = r := by
  by_cases hv : is_point_valid r.x r.y r.z
  · rcases ht : targetCell azOnly fAz fEl cAz cEl hOut wOut iIn
        r.x.toReal r.y.toReal r.z.toReal with _ | ij
    · rw [processPoint_miss hv ht] at hm
      exact Or.inl hm
    · by_cases hs : keepSkip keep (data.getD (ij.1 * wOut + ij.2) (Rec.zero 0)) r
      · rw [processPoint_skip hv ht hs] at hm
        exact Or.inl hm
      · rw [processPoint_write hv ht hs] at hm
        exact List.mem_or_eq_of_mem_set hm
  · rw [processPoint_invalid hv] at hm
    exact Or.inl hm

theorem processFrom_length {azOnly : Bool} {keep : ℤ} {fAz fEl cAz cEl : ℝ}
    {hOut wOut wIn : ℕ} :
    ∀ (rs : List Rec) (k : ℕ) (acc : List Rec),
      (processFrom azOnly keep fAz fEl cAz cEl hOut wOut wIn k rs acc).length =
        acc.length := by
  intro rs
  induction rs with
  | nil =>
    intro k acc
    rw [processFrom]
  | cons r rs ih =>
    intro k acc
    rw [processFrom, ih (k + 1)]
    exact processPoint_length

theorem processFrom_mem {azOnly : Bool} {keep : ℤ} {fAz fEl cAz cEl : ℝ}
    {hOut wOut wIn : ℕ} :
    ∀ (rs : List Rec) (k : ℕ) (acc : List Rec) (s : Rec),
      s ∈ processFrom azOnly keep fAz fEl cAz cEl hOut wOut wIn k rs acc →
      s ∈ acc ∨ s ∈ rs := by
  intro rs
  induction rs with
  | nil =>
    intro k acc s h
    rw [processFrom] at h
    exact Or.inl h
  | cons r rs ih =>
    intro k acc s h
    rw [processFrom] at h
    rcases ih (k + 1) _ s h with h1 | h1
    · rcases processPoint_subset h1 with h2 | h2
      · exact Or.inl h2
      · exact Or.inr (h2 ▸ List.mem_cons_self r rs)
    · exact Or.inr (List.mem_cons_of_mem r h1)

theorem processFrom_cell {azOnly : Bool} {keep : ℤ} {fAz fEl cAz cEl : ℝ}
    {hOut wOut wIn c : ℕ} :
    ∀ (rs : List Rec) (k : ℕ) (acc : List Rec) (a : Rec),
      acc[c]? = some a →
      (processFrom azOnly keep fAz fEl cAz cEl hOut wOut wIn k rs acc)[c]? =
        some (policyFold keep a
          (hitsFrom azOnly fAz fEl cAz cEl hOut wOut wIn c k rs)) := by
  intro rs
  induction rs with
  | nil =>
    intro k acc a h
    rw [processFrom, hitsFrom, policyFold]
    exact h
  | cons r rs ih =>
    intro k acc a h
    rw [processFrom]
    by_cases hv : is_point_valid r.x r.y r.z
    · rcases ht : targetCell azOnly fAz fEl cAz cEl hOut wOut (k / wIn)
          r.x.toReal r.y.toReal r.z.toReal with _ | ij
      · rw [processPoint_miss hv ht, hitsFrom_cons_miss hv ht]
        exact ih (k + 1) acc a h
      · by_cases hc : ij.1 * wOut + ij.2 = c
        · have hgd : acc.getD (ij.1 * wOut + ij.2) (Rec.zero 0) = a := by
            rw [hc, List.getD_eq_getElem?_getD, h]
            rfl
          rw [hitsFrom_cons_hit hv ht hc, policyFold]
          by_cases hs : keepSkip keep a r
          · rw [processPoint_skip hv ht (by rw [hgd]; exact hs), if_pos hs]
            exact ih (k + 1) acc a h
          · rw [processPoint_write hv ht (by rw [hgd]; exact hs), if_neg hs]
            have hlen : c < acc.length := (List.getElem?_eq_some.mp h).1
            refine ih (k + 1) (acc.set (ij.1 * wOut + ij.2) r) r ?_
            rw [hc, List.getElem?_set_eq_of_lt r hlen]
        · have hpp : (processPoint azOnly keep fAz fEl cAz cEl hOut wOut (k / wIn)
              r acc)[c]? = some a := by
            by_cases hs : keepSkip keep (acc.getD (ij.1 * wOut + ij.2) (Rec.zero 0)) r
            · rw [processPoint_skip hv ht hs]
              exact h
            · rw [processPoint_write hv ht hs, List.getElem?_set_ne hc]
              exact h
          rw [hitsFrom_cons_other hv ht hc]
          exact ih (k + 1) _ a hpp
    · rw [processPoint_invalid hv, hitsFrom_cons_invalid hv]
      exact ih (k + 1) acc a h

theorem hitsFrom_valid {azOnly : Bool} {fAz fEl cAz cEl : ℝ}
    {hOut wOut wIn c : ℕ} :
    ∀ (rs : List Rec) (k : ℕ) (s : Rec),
      s ∈ hitsFrom azOnly fAz fEl cAz cEl hOut wOut wIn c k rs → s.Valid := by
  intro rs
  induction rs with
  | nil =>
    intro k s h
    rw [hitsFrom] at h
    exact absurd h (List.not_mem_nil s)
  | cons r rs ih =>
    intro k s h
    by_cases hv : is_point_valid r.x r.y r.z
    · rcases ht : targetCell azOnly fAz fEl cAz cEl hOut wOut (k / wIn)
          r.x.toReal r.y.toReal r.z.toReal with _ | ij
      · rw [hitsFrom_cons_miss hv ht] at h
        exact ih (k + 1) s h
      · by_cases hc : ij.1 * wOut + ij.2 = c
        · rw [hitsFrom_cons_hit hv ht hc] at h
          rcases List.mem_cons.mp h with h1 | h1
          · exact h1 ▸ hv
          · exact ih (k + 1) s h1
        · rw [hitsFrom_cons_other hv ht hc] at h
          exact ih (k + 1) s h
    · rw [hitsFrom_cons_invalid hv] at h
      exact ih (k + 1) s h

theorem policyFold_last (rs : List Rec) : ∀ a : Rec,
    policyFold KEEP_LAST a rs = rs.getLastD a := by
  induction rs with
  | nil =>
    intro a
    rw [policyFold]
    rfl
  | cons r rs ih =>
    intro a
    rw [policyFold, if_neg (keepSkip_last a r), ih r]
    exact (List.getLastD_cons a r rs).symm

theorem policyFold_first_stay (rs : List Rec) : ∀ a : Rec, a.Valid →
    policyFold KEEP_FIRST a rs = a := by
  induction rs with
  | nil =>
    intro a ha
    rw [policyFold]
  | cons r rs ih =>
    intro a ha
    rw [policyFold, if_pos ((keepSkip_first a r).mpr ha)]
    exact ih a ha

theorem policyFold_first (rs : List Rec) (a : Rec) (ha : ¬ a.Valid)
    (hall : ∀ r ∈ rs, r.Valid) :
    policyFold KEEP_FIRST a rs = rs.headD a := by
  cases rs with
  | nil =>
    rw [policyFold]
    rfl
  | cons r rs =>
    rw [policyFold, if_neg (fun hk => ha ((keepSkip_first a r).mp hk))]
    exact policyFold_first_stay rs r (hall r (List.mem_cons_self r rs))

theorem getLastD_eq_getLast?_of_ne_nil (rs : List Rec) (h : rs ≠ []) : ∀ d : Rec,
    some (rs.getLastD d) = rs.getLast? := by
  induction rs with
  | nil => exact absurd rfl h
  | cons r rs ih =>
    intro d
    cases hrs : rs with
    | nil => rfl
    | cons s u =>
      rw [List.getLastD_cons, List.getLast?_cons_cons, ← hrs]
      exact ih (by simp [hrs]) r

theorem process_ok_iff (p : Projection) (input out0 out : Cloud) :
    process p input out0 = Except.ok out ↔
      (1 ≤ input.height ∧ 1 ≤ input.width ∧
       input.row_step = input.width * input.point_step % 2 ^ 32 ∧
       1 ≤ resolvedHeight p input.height ∧ 1 ≤ resolvedWidth p input.width ∧
       out = finishProcess p input
         { out0 with header := input.header,
                     height := resolvedHeight p input.height,
                     width := resolvedWidth p input.width }) := by
  unfold process
  split_ifs with h1 h2 h3 h4 h5
  · constructor
    · intro h
      injection h with h
      exact ⟨h1, h2, h3, h4, h5, h.symm⟩
    · rintro ⟨-, -, -, -, -, rfl⟩
      rfl
  all_goals
    constructor
    · intro hcontra
      exact hcontra.elim
    · rintro ⟨c1, c2, c3, c4, c5, -⟩
      tauto

theorem process_ok_data {p : Projection} {input out0 out : Cloud}
    (h : process p input out0 = Except.ok out) :
    out.height = resolvedHeight p input.height ∧
    out.width = resolvedWidth p input.width ∧
    out.point_step = input.point_step ∧
    out.row_step = out.width * input.point_step % 2 ^ 32 ∧
    out.data = processFrom p.azimuth_only p.keep
        (fAzOf p (resolvedWidth p input.width))
        (fElOf p (resolvedHeight p input.height))
        (cAzOf p (resolvedWidth p input.width))
        (cElOf p (resolvedHeight p input.height))
        (resolvedHeight p input.height)
        (resolvedWidth p input.width)
        input.width 0
        (input.data.take (input.height * input.width))
        (List.replicate
          (resolvedHeight p input.height * resolvedWidth p input.width)
          (Rec.zero input.point_step)) := by
  rw [process_ok_iff] at h
  obtain ⟨-, -, -, -, -, rfl⟩ := h
  refine ⟨?_, ?_, ?_, ?_, ?_⟩ <;> simp [finishProcess]

theorem process_error_data {p : Projection} {input out0 e : Cloud}
    (h : process p input out0 = Except.error e) : e.data = out0.data := by
  unfold process at h
  split_ifs at h with h1 h2 h3 h4 h5
  all_goals injection h with h
  all_goals rw [← h]

theorem process_error_early {p : Projection} {input out0 : Cloud}
    (h : ¬ 1 ≤ input.height ∨ ¬ 1 ≤ input.width ∨
         input.row_step ≠ input.width * input.point_step % 2 ^ 32) :
    process p input out0 = Except.error out0 := by
  unfold process
  split_ifs with h1 h2 h3 h4 h5 <;> first | rfl | tauto

theorem recZ_invalid : ¬ is_point_valid recZ.x recZ.y recZ.z := zero_rec_invalid 1

theorem processFrom_triv (azOnly : Bool) (keep : ℤ) (fAz fEl cAz cEl : ℝ)
    (hOut wOut wIn : ℕ) (acc : List Rec) :
    processFrom azOnly keep fAz fEl cAz cEl hOut wOut wIn 0 [recZ] acc = acc := by
  rw [processFrom, processPoint_invalid recZ_invalid, processFrom]

theorem process_triv_any (p : Projection)
    (hh : resolvedHeight p 1 = 1) (hw : resolvedWidth p 1 = 1) :
    process p inTriv cloud0 = Except.ok outTriv := by
  rw [process_ok_iff]
  have hh1 : resolvedHeight p inTriv.height = 1 := hh
  have hw1 : resolvedWidth p inTriv.width = 1 := hw
  refine ⟨le_refl 1, le_refl 1, rfl, by rw [hh1], by rw [hw1], ?_⟩
  rw [hh1, hw1]
  unfold finishProcess
  have htake : inTriv.data.take (inTriv.height * inTriv.width) = [recZ] := rfl
  rw [htake, processFrom_triv]
  rfl

theorem process_trivial : process Projection.init inTriv cloud0 = Except.ok outTriv := by
  apply process_triv_any
  · simp [resolvedHeight, Projection.init]
  · simp [resolvedWidth, Projection.init]

/-- C1: after a successful call, every record held by the output data
buffer is either the all zero no return record or a byte for byte copy
of the full record of one input point. -/
theorem C1_output_cells : ∀ (p : Projection) (input out0 out : Cloud),
    process p input out0 = Except.ok out →
    ∀ r ∈ out.data, r = Rec.zero input.point_step ∨ r ∈ input.data := by
  intro p input out0 out h r hr
  obtain ⟨-, -, -, -, hdata⟩ := process_ok_data h
  rw [hdata] at hr
  rcases processFrom_mem _ _ _ _ hr with h1 | h1
  · exact Or.inl (List.eq_of_mem_replicate h1)
  · exact Or.inr (List.take_subset _ _ h1)

theorem C1_witness :
    recZ = Rec.zero inTriv.point_step ∨ recZ ∈ inTriv.data :=
  C1_output_cells Projection.init inTriv cloud0 outTriv process_trivial recZ
    (by simp [outTriv])

/-- Once the input height and width asserts pass, the wrapped resolved
dimensions are non zero for every configuration representable in the 32
bit int members of the source: a non zero int32 converts to a non zero
uint32. -/
theorem toU32_pos (n : ℤ) (hne : n ≠ 0)
    (h1 : -(2 ^ 31) ≤ n) (h2 : n < 2 ^ 31) : 1 ≤ toU32 n := by
  unfold toU32
  omega

theorem resolvedHeight_pos (p : Projection) (inH : ℕ)
    (hr1 : -(2 ^ 31) ≤ p.height) (hr2 : p.height < 2 ^ 31)
    (h : 1 ≤ inH) : 1 ≤ resolvedHeight p inH := by
  unfold resolvedHeight
  split_ifs with hc
  · exact h
  · push_neg at hc
    exact toU32_pos p.height hc.2 hr1 hr2

theorem resolvedWidth_pos (p : Projection) (inW : ℕ)
    (hr1 : -(2 ^ 31) ≤ p.width) (hr2 : p.width < 2 ^ 31)
    (h : 1 ≤ inW) : 1 ≤ resolvedWidth p inW := by
  unfold resolvedWidth
  split_ifs with hc
  · exact h
  · exact toU32_pos p.width hc hr1 hr2

theorem process_pNeg : process pNeg inHdr cloud0 = Except.ok outNeg := by
  rw [process_ok_iff]
  have hrh : resolvedHeight pNeg inHdr.height = 4294967295 := by
    have ht : toU32 (-1) = 4294967295 := by decide
    simp [resolvedHeight, pNeg, ht]
  have hrw : resolvedWidth pNeg inHdr.width = 1 := by
    simp [resolvedWidth, pNeg, inHdr]
  refine ⟨le_refl 1, le_refl 1, rfl, by rw [hrh]; norm_num, by rw [hrw], ?_⟩
  rw [hrh, hrw]
  unfold finishProcess
  have htake : inHdr.data.take (inHdr.height * inHdr.width) = [recZ] := rfl
  rw [htake, processFrom_triv]
  rfl

/-- C4 (amended): a successful call resolves output.height to
input.height when azimuth only mode is set or the configured height is
0, and otherwise to the configured height converted to uint32 (reduced
modulo 2^32), which equals the configured height exactly when that value
lies in [0, 2^32); output.width is analogous with the configured width. -/
theorem C4_shape_resolution : ∀ (p : Projection) (input out0 out : Cloud),
    process p input out0 = Except.ok out →
    ((p.azimuth_only = true ∨ p.height = 0) → out.height = input.height) ∧
    (¬ (p.azimuth_only = true ∨ p.height = 0) → out.height = toU32 p.height) ∧
    (¬ (p.azimuth_only = true ∨ p.height = 0) → 0 ≤ p.height → p.height < 2 ^ 32 →
      (out.height : ℤ) = p.height) ∧
    (p.width = 0 → out.width = input.width) ∧
    (p.width ≠ 0 → out.width = toU32 p.width) ∧
    (p.width ≠ 0 → 0 ≤ p.width → p.width < 2 ^ 32 → (out.width : ℤ) = p.width) := by
  intro p input out0 out h
  obtain ⟨hh, hw, -, -, -⟩ := process_ok_data h
  have hhu : ¬ (p.azimuth_only = true ∨ p.height = 0) → out.height = toU32 p.height := by
    intro hc
    rw [hh, resolvedHeight, if_neg hc]
  have hwu : p.width ≠ 0 → out.width = toU32 p.width := by
    intro hc
    rw [hw, resolvedWidth, if_neg hc]
  refine ⟨?_, hhu, ?_, ?_, hwu, ?_⟩
  · intro hc
    rw [hh, resolvedHeight, if_pos hc]
  · intro hc hb1 hb2
    rw [hhu hc]
    unfold toU32
    rw [Int.emod_eq_of_lt hb1 hb2, Int.toNat_of_nonneg hb1]
  · intro hc
    rw [hw, resolvedWidth, if_pos hc]
  · intro hc hb1 hb2
    rw [hwu hc]
    unfold toU32
    rw [Int.emod_eq_of_lt hb1 hb2, Int.toNat_of_nonneg hb1]

/-- C4 counterexample: with configured height -1 (not azimuth only, not
zero) the uint32 assignment wraps to 4294967295, both asserts pass, and
the call succeeds with output.height different from the configured
height. -/
theorem C4_cex :
    process pNeg inHdr cloud0 = Except.ok outNeg ∧
    ¬ (pNeg.azimuth_only = true ∨ pNeg.height = 0) ∧
    (outNeg.height : ℤ) ≠ pNeg.height := by
  refine ⟨process_pNeg, ?_, ?_⟩
  · norm_num [pNeg]
  · norm_num [outNeg, pNeg]

theorem C4_witness :
    outTriv.height = inTriv.height ∧ (outTriv.width : ℤ) = pW1.width := by
  have hok : process pW1 inTriv cloud0 = Except.ok outTriv :=
    process_triv_any pW1 (by simp [resolvedHeight, pW1]) (by decide)
  have h := C4_shape_resolution pW1 inTriv cloud0 outTriv hok
  refine ⟨h.1 (Or.inr rfl), ?_⟩
  exact h.2.2.2.2.2 (by norm_num [pW1]) (by norm_num [pW1]) (by norm_num [pW1])

/-- C9: the call succeeds exactly when the geometric preconditions hold,
and every assert failure happens before any mutation of the output data
buffer.  For configurations representable in the 32 bit int members of
the source, the resolved dimension asserts can never fail once the input
asserts pass (non zero int32 values convert to non zero uint32 values),
so every failing call is an input check failure that leaves the output
entirely unmodified.  On success the output is complete and well formed. -/
theorem C9_failure_atomicity : ∀ (p : Projection) (input out0 : Cloud),
    ((∃ out, process p input out0 = Except.ok out) ↔
      (1 ≤ input.height ∧ 1 ≤ input.width ∧
       input.row_step = input.width * input.point_step % 2 ^ 32 ∧
       1 ≤ resolvedHeight p input.height ∧ 1 ≤ resolvedWidth p input.width)) ∧
    (∀ e, process p input out0 = Except.error e → e.data = out0.data) ∧
    ((¬ 1 ≤ input.height ∨ ¬ 1 ≤ input.width ∨
      input.row_step ≠ input.width * input.point_step % 2 ^ 32) →
      process p input out0 = Except.error out0) ∧
    (-(2 ^ 31) ≤ p.height → p.height < 2 ^ 31 →
     -(2 ^ 31) ≤ p.width → p.width < 2 ^ 31 →
      (1 ≤ input.height → 1 ≤ resolvedHeight p input.height) ∧
      (1 ≤ input.width → 1 ≤ resolvedWidth p input.width) ∧
      (∀ e, process p input out0 = Except.error e → e = out0)) ∧
    (∀ out, process p input out0 = Except.ok out →
      out.point_step = input.point_step ∧
      out.row_step = out.width * out.point_step % 2 ^ 32 ∧
      out.data.length = out.height * out.width) := by
  intro p input out0
  refine ⟨?_, ?_, ?_, ?_, ?_⟩
  · constructor
    · rintro ⟨out, h⟩
      obtain ⟨h1, h2, h3, h4, h5, -⟩ := (process_ok_iff p input out0 out).mp h
      exact ⟨h1, h2, h3, h4, h5⟩
    · rintro ⟨h1, h2, h3, h4, h5⟩
      exact ⟨_, (process_ok_iff p input out0 _).mpr ⟨h1, h2, h3, h4, h5, rfl⟩⟩
  · intro e h
    exact process_error_data h
  · intro h
    exact process_error_early h
  · intro hr1 hr2 hr3 hr4
    have hdh : 1 ≤ input.height → 1 ≤ resolvedHeight p input.height :=
      resolvedHeight_pos p input.height hr1 hr2
    have hdw : 1 ≤ input.width → 1 ≤ resolvedWidth p input.width :=
      resolvedWidth_pos p input.width hr3 hr4
    refine ⟨hdh, hdw, ?_⟩
    intro e he
    have hne : ¬ (1 ≤ input.height ∧ 1 ≤ input.width ∧
        input.row_step = input.width * input.point_step % 2 ^ 32) := by
      rintro ⟨c1, c2, c3⟩
      have hout : process p input out0 = Except.ok (finishProcess p input
          { out0 with header := input.header,
                      height := resolvedHeight p input.height,
                      width := resolvedWidth p input.width }) :=
        (process_ok_iff p input out0 _).mpr ⟨c1, c2, c3, hdh c1, hdw c2, rfl⟩
      rw [he] at hout
      simp at hout
    have hearly : process p input out0 = Except.error out0 :=
      process_error_early (by tauto)
    exact Except.error.inj (he.symm.trans hearly)
  · intro out h
    obtain ⟨hh, hw, hps, hrs, hdata⟩ := process_ok_data h
    refine ⟨hps, by rw [hrs, hps], ?_⟩
    rw [hdata, processFrom_length, List.length_replicate, hh, hw]

theorem C9_witness :
    outTriv.point_step = inTriv.point_step ∧
    outTriv.row_step = outTriv.width * outTriv.point_step % 2 ^ 32 ∧
    outTriv.data.length = outTriv.height * outTriv.width :=
  (C9_failure_atomicity Projection.init inTriv cloud0).2.2.2.2 outTriv process_trivial

/-- C7: the validity classifier returns true iff all three coordinates
are finite and at least one is non zero; in particular the all zero
triple and any triple with a non finite component are invalid. -/
theorem C7_is_point_valid_iff :
    (∀ x y z : F, is_point_valid x y z ↔
       (x.IsFinite ∧ y.IsFinite ∧ z.IsFinite ∧
        (x ≠ F.fin 0 ∨ y ≠ F.fin 0 ∨ z ≠ F.fin 0))) ∧
    ¬ is_point_valid (F.fin 0) (F.fin 0) (F.fin 0) ∧
    (∀ x y z : F, (¬ x.IsFinite ∨ ¬ y.IsFinite ∨ ¬ z.IsFinite) →
      ¬ is_point_valid x y z) := by
  have key : ∀ x y z : F, is_point_valid x y z ↔
      (x.IsFinite ∧ y.IsFinite ∧ z.IsFinite ∧
       (x ≠ F.fin 0 ∨ y ≠ F.fin 0 ∨ z ≠ F.fin 0)) := by
    intro x y z
    unfold is_point_valid
    constructor
    · rintro ⟨hx, hy, hz, h⟩
      refine ⟨hx, hy, hz, ?_⟩
      rcases h with h | h | h
      · exact Or.inl ((F.nonzero_iff_ne_fin_zero x hx).mp h)
      · exact Or.inr (Or.inl ((F.nonzero_iff_ne_fin_zero y hy).mp h))
      · exact Or.inr (Or.inr ((F.nonzero_iff_ne_fin_zero z hz).mp h))
    · rintro ⟨hx, hy, hz, h⟩
      refine ⟨hx, hy, hz, ?_⟩
      rcases h with h | h | h
      · exact Or.inl ((F.nonzero_iff_ne_fin_zero x hx).mpr h)
      · exact Or.inr (Or.inl ((F.nonzero_iff_ne_fin_zero y hy).mpr h))
      · exact Or.inr (Or.inr ((F.nonzero_iff_ne_fin_zero z hz).mpr h))
  refine ⟨key, ?_, ?_⟩
  · rw [key]
    simp
  · intro x y z h hv
    rw [key] at hv
    rcases h with h | h | h
    · exact h hv.1
    · exact h hv.2.1
    · exact h hv.2.2.1

theorem C7_witness : ¬ is_point_valid F.nan (F.fin 1) (F.fin 1) :=
  C7_is_point_valid_iff.2.2 F.nan (F.fin 1) (F.fin 1)
    (Or.inl (by simp [F.IsFinite]))

/-- C8 counterexample: the valid point (0, 0, -1) has elevation exactly
-(pi/2), so the claimed half open range that excludes -(pi/2) is wrong. -/
theorem C8_cex :
    is_point_valid (F.fin 0) (F.fin 0) (F.fin (-1)) ∧
    elevation 0 0 (-1) = -(Real.pi / 2) ∧
    ¬ (-(Real.pi / 2) < elevation 0 0 (-1)) := by
  have h0 : hypot 0 0 = 0 := by
    unfold hypot
    norm_num
  have h1 : elevation 0 0 (-1) = -(Real.pi / 2) := by
    unfold elevation
    rw [h0]
    unfold atan2
    norm_num
  refine ⟨?_, h1, by rw [h1]; exact lt_irrefl _⟩
  simp [is_point_valid, F.IsFinite, F.Nonzero]

/-- C8 (amended): elevation(x, y, z) = atan2(z, hypot(x, y)) and its
value lies in the closed range from -(pi/2) to pi/2; the lower endpoint
is attained, e.g. at (0, 0, -1). -/
theorem C8_elevation_range : ∀ x y z : ℝ,
    elevation x y z = atan2 z (hypot x y) ∧
    -(Real.pi / 2) ≤ elevation x y z ∧ elevation x y z ≤ Real.pi / 2 := by
  intro x y z
  refine ⟨rfl, ?_, ?_⟩
  · exact (atan2_bounds z (hypot x y) (hypot_nonneg x y)).1
  · exact (atan2_bounds z (hypot x y) (hypot_nonneg x y)).2

/-- C5: the four mapping constants resolve to the configured value when
it is finite (and non zero, for the scales), and to the geometry derived
defaults -width/(2 pi), -height/(pi/2), width/2 - 0.5 and
height/2 - 0.5 otherwise. -/
theorem C5_constant_resolution : ∀ (p : Projection) (hOut wOut : ℕ),
    (∀ a : ℝ, a ≠ 0 → p.f_azimuth = F.fin a → fAzOf p wOut = a) ∧
    (¬ (p.f_azimuth.IsFinite ∧ p.f_azimuth.Nonzero) →
      fAzOf p wOut = -(wOut : ℝ) / (2 * Real.pi)) ∧
    (∀ a : ℝ, a ≠ 0 → p.f_elevation = F.fin a → fElOf p hOut = a) ∧
    (¬ (p.f_elevation.IsFinite ∧ p.f_elevation.Nonzero) →
      fElOf p hOut = -(hOut : ℝ) / (Real.pi / 2)) ∧
    (∀ a : ℝ, p.c_azimuth = F.fin a → cAzOf p wOut = a) ∧
    (¬ p.c_azimuth.IsFinite → cAzOf p wOut = (wOut : ℝ) / 2 - 0.5) ∧
    (∀ a : ℝ, p.c_elevation = F.fin a → cElOf p hOut = a) ∧
    (¬ p.c_elevation.IsFinite → cElOf p hOut = (hOut : ℝ) / 2 - 0.5) := by
  intro p hOut wOut
  refine ⟨?_, ?_, ?_, ?_, ?_, ?_, ?_, ?_⟩
  · intro a ha hfa
    unfold fAzOf resolveScale
    rw [hfa, if_pos ⟨trivial, ha⟩]
    rfl
  · intro h
    unfold fAzOf resolveScale
    rw [if_neg h]
  · intro a ha hfe
    unfold fElOf resolveScale
    rw [hfe, if_pos ⟨trivial, ha⟩]
    rfl
  · intro h
    unfold fElOf resolveScale
    rw [if_neg h]
  · intro a hca
    unfold cAzOf resolveOffset
    rw [hca, if_pos (show (F.fin a).IsFinite from trivial)]
    rfl
  · intro h
    unfold cAzOf resolveOffset
    rw [if_neg h]
  · intro a hce
    unfold cElOf resolveOffset
    rw [hce, if_pos (show (F.fin a).IsFinite from trivial)]
    rfl
  · intro h
    unfold cElOf resolveOffset
    rw [if_neg h]

theorem C5_witness :
    fAzOf p5 3 = 2 ∧
    fElOf p5 4 = -(4 : ℝ) / (Real.pi / 2) ∧
    cAzOf p5 3 = 0 ∧
    cElOf p5 4 = (4 : ℝ) / 2 - 0.5 := by
  have h := C5_constant_resolution p5 4 3
  refine ⟨h.1 2 (by norm_num) rfl, ?_, h.2.2.2.2.1 0 rfl, ?_⟩
  · have := h.2.2.2.1 (by simp [p5, F.IsFinite])
    rwa [show ((4 : ℕ) : ℝ) = (4 : ℝ) by norm_num] at this
  · have := h.2.2.2.2.2.2.2 (by simp [p5, F.IsFinite])
    rwa [show ((4 : ℕ) : ℝ) = (4 : ℝ) by norm_num] at this

/-- C6: the continuous column u = f_azimuth * azimuth + c_azimuth + 0.5
is tested against the half open range from 0 to output.width: the point
is dropped exactly when u < 0 or u >= width (the NaN case cannot arise
in the real model), in particular when u equals the width; otherwise the
discrete column is the floor of u. -/
theorem C6_column_test : ∀ (w : ℕ) (fa ca az : ℝ),
    (colOf w fa ca az = none ↔
      (fa * az + ca + 0.5 < 0 ∨ (w : ℝ) ≤ fa * az + ca + 0.5)) ∧
    (fa * az + ca + 0.5 = (w : ℝ) → colOf w fa ca az = none) ∧
    (∀ j, colOf w fa ca az = some j → (j : ℤ) = ⌊fa * az + ca + 0.5⌋) := by
  intro w fa ca az
  refine ⟨colOf_none_iff w fa ca az, ?_, ?_⟩
  · intro h
    rw [colOf_none_iff]
    exact Or.inr (le_of_eq h.symm)
  · intro j hj
    exact (colOf_some w fa ca az j hj).1

theorem C6_witness :
    ((0 : ℤ) = ⌊(1 : ℝ) * 0 + (-0.5) + 0.5⌋) ∧ colOf 1 1 (-0.5) 1 = none := by
  constructor
  · apply (C6_column_test 1 1 (-0.5) 0).2.2 0
    unfold colOf
    rw [if_neg (by norm_num)]
    norm_num
  · apply (C6_column_test 1 1 (-0.5) 1).2.1
    norm_num

/-- C2: under KEEP_CLOSEST a candidate is skipped iff the cell is valid
and the existing Euclidean range is at most the candidate range (ties
keep the existing point); under KEEP_FARTHEST iff the cell is valid and
the existing range is at least the candidate range.  The nested hypot
expression of the source equals the Euclidean norm. -/
theorem C2_closest_farthest : ∀ cur cand : Rec,
    (keepSkip KEEP_CLOSEST cur cand ↔
      (cur.Valid ∧
       Real.sqrt (cur.x.toReal ^ 2 + cur.y.toReal ^ 2 + cur.z.toReal ^ 2) ≤
       Real.sqrt (cand.x.toReal ^ 2 + cand.y.toReal ^ 2 + cand.z.toReal ^ 2))) ∧
    (keepSkip KEEP_FARTHEST cur cand ↔
      (cur.Valid ∧
       Real.sqrt (cand.x.toReal ^ 2 + cand.y.toReal ^ 2 + cand.z.toReal ^ 2) ≤
       Real.sqrt (cur.x.toReal ^ 2 + cur.y.toReal ^ 2 + cur.z.toReal ^ 2))) := by
  intro cur cand
  have hr : ∀ r : Rec,
      r.range = Real.sqrt (r.x.toReal ^ 2 + r.y.toReal ^ 2 + r.z.toReal ^ 2) := by
    intro r
    unfold Rec.range
    exact hypot_hypot_eq _ _ _
  constructor
  · rw [keepSkip_closest, hr cur, hr cand]
  · rw [keepSkip_farthest, hr cur, hr cand]

theorem validA : is_point_valid recA.x recA.y recA.z := by
  simp [recA, is_point_valid, F.IsFinite, F.Nonzero]

theorem validB : is_point_valid recB.x recB.y recB.z := by
  simp [recB, is_point_valid, F.IsFinite, F.Nonzero]

theorem colOf_unit (a : ℝ) (h : 0 < a) : colOf 1 1 (-0.5) (azimuth a 0 0) = some 0 := by
  rw [azimuth_axis a h]
  unfold colOf
  rw [if_neg (by norm_num)]
  norm_num

theorem rowOf_unit (a : ℝ) (h : 0 < a) : rowOf 1 1 (-0.5) (elevation a 0 0) = some 0 := by
  rw [elevation_axis a h]
  unfold rowOf
  rw [if_neg (by norm_num)]
  norm_num

theorem targetCell_unit (a : ℝ) (h : 0 < a) (iIn : ℕ) :
    targetCell false 1 1 (-0.5) (-0.5) 1 1 iIn a 0 0 = some (0, 0) := by
  unfold targetCell
  rw [colOf_unit a h]
  show (if false then some (iIn, 0) else
    match rowOf 1 1 (-0.5) (elevation a 0 0) with
    | none => none
    | some i => some (i, 0)) = some (0, 0)
  rw [if_neg (by simp), rowOf_unit a h]

theorem targetA (k : ℕ) : targetCell false 1 1 (-0.5) (-0.5) 1 1 k
    recA.x.toReal recA.y.toReal recA.z.toReal = some (0, 0) := by
  show targetCell false 1 1 (-0.5) (-0.5) 1 1 k 1 0 0 = some (0, 0)
  exact targetCell_unit 1 one_pos k

theorem targetB (k : ℕ) : targetCell false 1 1 (-0.5) (-0.5) 1 1 k
    recB.x.toReal recB.y.toReal recB.z.toReal = some (0, 0) := by
  show targetCell false 1 1 (-0.5) (-0.5) 1 1 k 2 0 0 = some (0, 0)
  exact targetCell_unit 2 two_pos k

theorem hRHt : resolvedHeight pC3 inC3.height = 1 := by
  simp [resolvedHeight, pC3, inC3]

theorem hRWt : resolvedWidth pC3 inC3.width = 1 := by
  decide

theorem hfAz1 : fAzOf pC3 1 = 1 := by
  simp [fAzOf, resolveScale, pC3, F.IsFinite, F.Nonzero, F.toReal]

theorem hfEl1 : fElOf pC3 1 = 1 := by
  simp [fElOf, resolveScale, pC3, F.IsFinite, F.Nonzero, F.toReal]

theorem hcAz1 : cAzOf pC3 1 = -0.5 := by
  simp [cAzOf, resolveOffset, pC3, F.IsFinite, F.toReal]

theorem hcEl1 : cElOf pC3 1 = -0.5 := by
  simp [cElOf, resolveOffset, pC3, F.IsFinite, F.toReal]

theorem hits_C3 : hitsOf pC3 inC3 0 = [recA, recB] := by
  unfold hitsOf
  rw [hRHt, hRWt, hfAz1, hfEl1, hcAz1, hcEl1]
  have hao : pC3.azimuth_only = false := rfl
  have hwi : inC3.width = 2 := rfl
  have htake : inC3.data.take (inC3.height * inC3.width) = [recA, recB] := rfl
  rw [hao, htake, hwi]
  rw [hitsFrom_cons_hit validA (targetA (0 / 2)) (by norm_num),
      hitsFrom_cons_hit validB (targetB ((0 + 1) / 2)) (by norm_num),
      hitsFrom]

theorem stepA : processPoint false KEEP_LAST 1 1 (-0.5) (-0.5) 1 1 (0 / 2)
    recA [Rec.zero 1] = [recA] := by
  rw [processPoint_write validA (targetA (0 / 2)) (keepSkip_last _ _)]
  rfl

theorem stepB : processPoint false KEEP_LAST 1 1 (-0.5) (-0.5) 1 1 ((0 + 1) / 2)
    recB [recA] = [recB] := by
  rw [processPoint_write validB (targetB ((0 + 1) / 2)) (keepSkip_last _ _)]
  rfl

theorem processFrom_C3 :
    processFrom false KEEP_LAST 1 1 (-0.5) (-0.5) 1 1 2 0 [recA, recB] [Rec.zero 1] =
      [recB] := by
  rw [processFrom, stepA, processFrom, stepB, processFrom]

theorem process_C3 : process pC3 inC3 cloud0 = Except.ok outC3 := by
  rw [process_ok_iff]
  refine ⟨by norm_num [inC3], by norm_num [inC3], by norm_num [inC3],
    by rw [hRHt], by rw [hRWt], ?_⟩
  rw [hRHt, hRWt]
  unfold finishProcess
  show outC3 = { cloud0 with
    header := inC3.header, height := 1, width := 1,
    fields := inC3.fields, is_bigendian := inC3.is_bigendian,
    point_step := inC3.point_step,
    row_step := 1 * inC3.point_step % 2 ^ 32,
    is_dense := inC3.is_dense,
    data := processFrom pC3.azimuth_only pC3.keep
      (fAzOf pC3 1) (fElOf pC3 1) (cAzOf pC3 1) (cElOf pC3 1) 1 1 inC3.width 0
      (inC3.data.take (inC3.height * inC3.width))
      (List.replicate (1 * 1) (Rec.zero inC3.point_step)) }
  have hao : pC3.azimuth_only = false := rfl
  have hkp : pC3.keep = KEEP_LAST := rfl
  have hwi : inC3.width = 2 := rfl
  have htake : inC3.data.take (inC3.height * inC3.width) = [recA, recB] := rfl
  have hrep : List.replicate ((1 : ℕ) * 1) (Rec.zero inC3.point_step) = [Rec.zero 1] := rfl
  rw [hfAz1, hfEl1, hcAz1, hcEl1, hao, hkp, htake, hrep, hwi, processFrom_C3]
  rfl

/-- C3: among the valid candidates that reach one output cell, listed in
scan order, KEEP_FIRST keeps the first (a valid cell is never
overwritten) and KEEP_LAST, the default policy, keeps the last (a later
candidate always overwrites). -/
theorem C3_first_last_policy : ∀ (p : Projection) (input out0 out : Cloud)
    (c : ℕ) (rs : List Rec),
    process p input out0 = Except.ok out →
    hitsOf p input c = rs →
    rs ≠ [] →
    c < out.data.length →
    ((p.keep = KEEP_FIRST → out.data[c]? = rs.head?) ∧
     (p.keep = KEEP_LAST → out.data[c]? = rs.getLast?) ∧
     Projection.init.keep = KEEP_LAST) := by
  intro p input out0 out c rs hok hhits hne hlen
  obtain ⟨-, -, -, -, hdata⟩ := process_ok_data hok
  rw [hdata] at hlen ⊢
  rw [processFrom_length, List.length_replicate] at hlen
  have hinit : (List.replicate
      (resolvedHeight p input.height * resolvedWidth p input.width)
      (Rec.zero input.point_step))[c]? = some (Rec.zero input.point_step) := by
    rw [List.getElem?_replicate, if_pos hlen]
  unfold hitsOf at hhits
  rw [processFrom_cell _ 0 _ _ hinit, hhits]
  have hall : ∀ r ∈ rs, r.Valid := by
    intro r hr
    rw [← hhits] at hr
    exact hitsFrom_valid _ _ _ hr
  refine ⟨?_, ?_, rfl⟩
  · intro hk
    rw [hk, policyFold_first rs _ (zero_rec_invalid input.point_step) hall]
    cases rs with
    | nil => exact absurd rfl hne
    | cons a l => rfl
  · intro hk
    rw [hk, policyFold_last rs _]
    exact getLastD_eq_getLast?_of_ne_nil rs hne _

theorem C3_witness :
    process pC3 inC3 cloud0 = Except.ok outC3 ∧ outC3.data[0]? = some recB := by
  refine ⟨process_C3, ?_⟩
  have h := C3_first_last_policy pC3 inC3 cloud0 outC3 0 [recA, recB] process_C3
      hits_C3 (by simp) (by norm_num [outC3])
  rw [h.2.1 rfl]
  rfl

/-- C10: in azimuth only mode the resolved output height is always the
input height regardless of the configured height, so every processed
point targets row i_out = i_in inside the bounds of the output buffer;
the out of bounds write contemplated in the spec is unreachable. -/
theorem C10_azimuth_only_safe : ∀ (p : Projection) (input out0 out : Cloud),
    p.azimuth_only = true →
    process p input out0 = Except.ok out →
    out.height = input.height ∧
    out.data.length = out.height * out.width ∧
    (∀ (iIn : ℕ) (x y z : ℝ) (i j : ℕ),
      iIn < input.height →
      targetCell true (fAzOf p out.width) (fElOf p out.height)
        (cAzOf p out.width) (cElOf p out.height) out.height out.width iIn x y z =
        some (i, j) →
      i = iIn ∧ i < out.height ∧ j < out.width ∧
      i * out.width + j < out.data.length) := by
  intro p input out0 out ha hok
  obtain ⟨hh, hw, -, -, hdata⟩ := process_ok_data hok
  have hhgt : out.height = input.height := by
    rw [hh, resolvedHeight, if_pos (Or.inl ha)]
  have hlen : out.data.length = out.height * out.width := by
    rw [hdata, processFrom_length, List.length_replicate, hh, hw]
  refine ⟨hhgt, hlen, ?_⟩
  intro iIn x y z i j hi htc
  unfold targetCell at htc
  rcases hc : colOf out.width (fAzOf p out.width) (cAzOf p out.width)
      (azimuth x y z) with _ | j0
  · rw [hc] at htc
    exact absurd htc (by simp)
  · rw [hc] at htc
    simp only [if_true] at htc
    have hij : iIn = i ∧ j0 = j := by
      have := Option.some.inj htc
      exact ⟨congrArg Prod.fst this, congrArg Prod.snd this⟩
    obtain ⟨hi0, hj0⟩ := hij
    have hjw : j < out.width := hj0 ▸ (colOf_some _ _ _ _ j0 hc).2
    have hih : i < out.height := by
      rw [hhgt, ← hi0]
      exact hi
    refine ⟨hi0.symm, hih, hjw, ?_⟩
    rw [hlen]
    calc i * out.width + j < i * out.width + out.width := by omega
      _ = (i + 1) * out.width := by ring
      _ ≤ out.height * out.width := Nat.mul_le_mul_right _ (by omega)

theorem process_p10 : process p10 inTriv cloud0 = Except.ok outTriv := by
  apply process_triv_any
  · simp [resolvedHeight, p10]
  · decide

theorem C10_witness :
    (0 : ℕ) = 0 ∧ 0 < outTriv.height ∧ 0 < outTriv.width ∧
    0 * outTriv.width + 0 < outTriv.data.length := by
  have h := C10_azimuth_only_safe p10 inTriv cloud0 outTriv rfl process_p10
  refine h.2.2 0 1 0 0 0 0 (by norm_num [inTriv]) ?_
  have hfa : fAzOf p10 outTriv.width = 1 := by
    simp [outTriv, fAzOf, resolveScale, p10, F.IsFinite, F.Nonzero, F.toReal]
  have hca : cAzOf p10 outTriv.width = -0.5 := by
    simp [outTriv, cAzOf, resolveOffset, p10, F.IsFinite, F.toReal]
  have hwd : outTriv.width = 1 := rfl
  have hhg : outTriv.height = 1 := rfl
  rw [hfa, hca, hwd, hhg]
  unfold targetCell
  rw [colOf_unit 1 one_pos]
  rfl

end cloud_proc
